import Mathlib

/-!
Verification of the chunking and threshold-retrieval logic of the ai_labs
repository (proof-of-concept RAG pipelines).

The definitions below are a shallow embedding of the Python sources:

* `TextChunker.init`, `split_text`, `chunk_documents` embed
  `01_az_rag_poc/src/embedding_pipeline.py` (class `TextChunker`).
* `filter_by_threshold` embeds the filtering comprehension of
  `Retriever.retrieve_with_threshold` in `01_lc_rag_poc/src/retriever.py`.
* `format_context` embeds `HybridRetriever.format_context` in
  `01_az_rag_poc/src/retriever.py`; `format_retrieved_context` embeds
  `Retriever.format_retrieved_context` in `01_lc_rag_poc/src/retriever.py`.

Modelling conventions: Python strings are `List Char`; Python ints are `Int`
(arbitrary precision, possibly negative); Python floats are modelled as exact
rationals `Rat`; Python slice / `str.rfind` index normalisation (negative
indices count from the end, out-of-range indices clamp) is modelled
explicitly by `pyNormIdx`; the unbounded `while` loop of `split_text` is
modelled with explicit fuel, `none` meaning the loop has not finished within
the given fuel (so `∀ fuel, … = none` states non-termination).
-/

/-- Python `str.isspace` / `str.strip` whitespace set, restricted to the ASCII
range (the sources only ever feed ASCII whitespace): space, tab, newline,
carriage return, vertical tab, form feed. -/
def isPySpace (c : Char) : Bool :=
  c == ' ' || c == '\t' || c == '\n' || c == '\r' ||
  c == Char.ofNat 11 || c == Char.ofNat 12

/-- Python `str.strip()`: drop leading and trailing whitespace. -/
def pystrip (s : List Char) : List Char :=
  ((s.dropWhile isPySpace).reverse.dropWhile isPySpace).reverse

/-- Python slice-index normalisation for a sequence of length `n`: a negative
index counts from the end (clamped below at 0), a non-negative index is
clamped above at `n`. -/
def pyNormIdx (n : Nat) (i : Int) : Nat :=
  if i < 0 then (i + n).toNat else min i.toNat n

/-- Python `s[a:b]` for a string of characters. -/
def pyslice (s : List Char) (a b : Int) : List Char :=
  (s.take (pyNormIdx s.length b)).drop (pyNormIdx s.length a)

/-- Python `s.rfind(c, a, b)` for a single-character needle: the largest
index `i` with `a' ≤ i < b'` (after slice normalisation) such that `s[i] = c`,
or `-1` if there is none.  The result is an absolute, non-negative index. -/
def pyrfind (s : List Char) (c : Char) (a b : Int) : Int :=
  let lo := pyNormIdx s.length a
  let hi := pyNormIdx s.length b
  match (((List.range hi).drop lo).filter (fun i => s.getD i ' ' == c)).getLast? with
  | some i => (i : Int)
  | none => -1

/-- Python `sep.join(parts)`. -/
def joinSep (sep : List Char) : List (List Char) → List Char
  | [] => []
  | [x] => x
  | x :: y :: ys => x ++ sep ++ joinSep sep (y :: ys)

/-- Configuration state of `TextChunker` (embedding_pipeline.py lines 23-37):
the two integer fields stored by `__init__`.  The tiktoken encoding handle is
external state irrelevant to `split_text` and is not modelled. -/
structure TextChunker where
  chunk_size : Int
  chunk_overlap : Int
deriving DecidableEq

/-- Error type for the configuration-validation behaviour the specification
ascribes to construction. -/
inductive ConfigurationError where
  | invalid : ConfigurationError
deriving DecidableEq

/-- Embeds `TextChunker.__init__` (embedding_pipeline.py lines 23-37): the
constructor stores `chunk_size` and `chunk_overlap` and loads a tokenizer
(external call); it contains no conditional and raises nothing, so the
embedding always returns `Except.ok`. -/
def TextChunker.init (chunk_size chunk_overlap : Int) :
    Except ConfigurationError TextChunker :=
  Except.ok { chunk_size := chunk_size, chunk_overlap := chunk_overlap }

/-- Lines 49-56 of embedding_pipeline.py: the candidate end
`end = start + chunk_size`, snapped back to just after the last `'.'` or
`'\n'` strictly beyond `start` when this is not the final window
(`end < len(text)`) and such a boundary exists. -/
def snapEnd (ck : TextChunker) (text : List Char) (start : Int) : Int :=
  if start + ck.chunk_size < (text.length : Int) then
    if pyrfind text '.' start (start + ck.chunk_size) > start
        || pyrfind text '\n' start (start + ck.chunk_size) > start then
      max (pyrfind text '.' start (start + ck.chunk_size))
          (pyrfind text '\n' start (start + ck.chunk_size)) + 1
    else start + ck.chunk_size
  else start + ck.chunk_size

/-- Lines 58-61 of embedding_pipeline.py: `chunk = text[start:end].strip()`,
appended to the accumulated chunks only if non-empty. -/
def pushChunk (text : List Char) (start e1 : Int) (chunks : List (List Char)) :
    List (List Char) :=
  if (pystrip (pyslice text start e1)).isEmpty then chunks
  else chunks ++ [pystrip (pyslice text start e1)]

/-- The `while start < len(text)` loop of `TextChunker.split_text`
(embedding_pipeline.py lines 45-70), with explicit fuel.  Each fuelled step
is one loop iteration: compute `end` (`snapEnd`), append the stripped slice
if non-empty (`pushChunk`), advance `start = end - chunk_overlap`, break if
`start >= len(text)`. -/
def splitLoop (ck : TextChunker) (text : List Char) :
    Nat → Int → List (List Char) → Option (List (List Char))
  | 0, _, _ => none
  | fuel + 1, start, chunks =>
    if start < (text.length : Int) then
      if snapEnd ck text start - ck.chunk_overlap ≥ (text.length : Int) then
        some (pushChunk text start (snapEnd ck text start) chunks)
      else
        splitLoop ck text fuel (snapEnd ck text start - ck.chunk_overlap)
          (pushChunk text start (snapEnd ck text start) chunks)
    else some chunks

/-- Embeds `TextChunker.split_text` (embedding_pipeline.py lines 39-70):
texts no longer than `chunk_size` are returned unchanged as a singleton list,
otherwise the chunking loop runs from `start = 0` with an empty accumulator. -/
def split_text (ck : TextChunker) (text : List Char) (fuel : Nat) :
    Option (List (List Char)) :=
  if (text.length : Int) ≤ ck.chunk_size then some [text]
  else splitLoop ck text fuel 0 []

/-- Input record of `chunk_documents`: a `{page_content, metadata}` dict.  The
metadata dict is opaque to the chunker and modelled by a type parameter. -/
structure PyDoc (μ : Type) where
  page_content : List Char
  metadata : μ
deriving DecidableEq

/-- Output record of `chunk_documents`: the Python code builds
`{page_content: chunk, metadata: {**metadata, "chunk": idx, "total_chunks": n}}`;
the parent metadata is kept verbatim in `metadata` and the two overlay keys
become the fields `chunk` and `total_chunks`. -/
structure ChunkedDoc (μ : Type) where
  page_content : List Char
  metadata : μ
  chunk : Nat
  total_chunks : Nat
deriving DecidableEq

/-- The inner `for chunk_idx, chunk in enumerate(chunks)` loop of
`chunk_documents` (embedding_pipeline.py lines 92-101) for one document. -/
def enumChunks {μ : Type} (d : PyDoc μ) (cs : List (List Char)) :
    List (ChunkedDoc μ) :=
  cs.enum.map (fun p =>
    { page_content := p.2, metadata := d.metadata,
      chunk := p.1, total_chunks := cs.length })

/-- The outer `for doc in documents` loop of `chunk_documents`
(embedding_pipeline.py lines 84-101), appending into the accumulator
`chunked_docs`; `none` propagates a `split_text` that ran out of fuel. -/
def chunkDocsLoop {μ : Type} (ck : TextChunker) (fuel : Nat) :
    List (PyDoc μ) → List (ChunkedDoc μ) → Option (List (ChunkedDoc μ))
  | [], acc => some acc
  | d :: ds, acc =>
    match split_text ck d.page_content fuel with
    | none => none
    | some cs => chunkDocsLoop ck fuel ds (acc ++ enumChunks d cs)

/-- Embeds `TextChunker.chunk_documents` (embedding_pipeline.py lines 72-104). -/
def chunk_documents {μ : Type} (ck : TextChunker) (docs : List (PyDoc μ))
    (fuel : Nat) : Option (List (ChunkedDoc μ)) :=
  chunkDocsLoop ck fuel docs []

/-- Spec-side definition (from the specification's words, §8 "Chunk
coverage"): concatenate the chunks in order after removing from each chunk
after the first the declared overlap region, i.e. its first `chunk_overlap`
characters. -/
def reconstructOverlap (ov : Nat) : List (List Char) → List Char
  | [] => []
  | c :: cs => c ++ (cs.map (List.drop ov)).flatten

/-- A LangChain `Document` as consumed by the lc-retriever: `page_content`
plus the two metadata keys the formatter reads; `none` models an absent key
(`metadata.get` falls back to its default). -/
structure LcDocument where
  page_content : List Char
  source_file : Option (List Char)
  page : Option Int
deriving DecidableEq

/-- Embeds the filtering comprehension of `Retriever.retrieve_with_threshold`
(01_lc_rag_poc/src/retriever.py lines 126-129):
`[doc for doc, score in results_with_scores if score >= score_threshold]`,
building the result list by appending, as the comprehension does. -/
def filter_by_threshold (results_with_scores : List (LcDocument × Rat))
    (score_threshold : Rat) : List LcDocument :=
  results_with_scores.foldl
    (fun acc p => if p.2 ≥ score_threshold then acc ++ [p.1] else acc) []

/-- An Azure-search result dict as consumed by `HybridRetriever.format_context`:
`content`, the two metadata keys read via `.get`, and the optional score. -/
structure AzSearchDoc where
  content : List Char
  source_file : Option (List Char)
  page : Option Int
  score : Option Rat
deriving DecidableEq

/-- Python `"%.3f"`-style rendering used for `f"{score:.3f}"`, on the
rational model of floats: sign, integer part, `'.'`, and exactly three
fractional digits.  `m` is `⌊|q| * 1000 + 1/2⌋` computed on numerator and
denominator (rounding half away from zero; the binary-float tie cases of
CPython are not observable on the rationals used here). -/
def format3 (q : Rat) : List Char :=
  let m : Nat := (q.num.natAbs * 2000 + q.den) / (2 * q.den)
  let sign : List Char := if q.num < 0 then ['-'] else []
  sign ++ (Nat.repr (m / 1000)).data ++ '.' ::
    ((Nat.repr (m % 1000 + 1000)).data.drop 1)

/-- Models `doc["metadata"].get("source_file", "unknown")` in `format_context`. -/
def azRenderSource (o : Option (List Char)) : List Char :=
  o.getD ("unknown".data)

/-- Models `doc["metadata"].get("page", "?")` in `format_context`, rendered by the
f-string: a stored integer prints in decimal, the default prints as `?`. -/
def azRenderPage (o : Option Int) : List Char :=
  match o with
  | some n => (Int.repr n).data
  | none => "?".data

/-- One `context_parts` entry of `HybridRetriever.format_context`
(01_az_rag_poc/src/retriever.py lines 130-133):
`f"[Document {idx}] (Source: {source}, Page: {page}, Score: {score:.3f})\n{doc['content']}\n"`. -/
def azBlock (idx : Nat) (d : AzSearchDoc) : List Char :=
  ("[Document ".data) ++ (Nat.repr idx).data ++ ("] (Source: ".data) ++
    azRenderSource d.source_file ++ (", Page: ".data) ++ azRenderPage d.page ++
    (", Score: ".data) ++ format3 (d.score.getD (mkRat 0 1)) ++ (")\n".data) ++
    d.content ++ ['\n']

/-- Embeds `HybridRetriever.format_context`
(01_az_rag_poc/src/retriever.py lines 114-135): the empty case returns the
sentinel, otherwise the `enumerate(documents, 1)` loop builds the blocks,
joined by `"\n"`. -/
def format_context (documents : List AzSearchDoc) : List Char :=
  if documents.isEmpty then ("No relevant documents found.".data)
  else joinSep ['\n'] (documents.enum.map (fun p => azBlock (p.1 + 1) p.2))

/-- Models `doc.metadata.get('page', 'N/A')` in `format_retrieved_context`. -/
def lcRenderPage (o : Option Int) : List Char :=
  match o with
  | some n => (Int.repr n).data
  | none => "N/A".data

/-- One block of `Retriever.format_retrieved_context`
(01_lc_rag_poc/src/retriever.py lines 155-163):
`f"[Source {i}: {source}, page {page}]\n{content}"` with
`content = doc.page_content.strip()`. -/
def lcBlock (i : Nat) (d : LcDocument) : List Char :=
  ("[Source ".data) ++ (Nat.repr i).data ++ (": ".data) ++
    (d.source_file.getD ("unknown".data)) ++ (", page ".data) ++
    lcRenderPage d.page ++ ("]\n".data) ++ pystrip d.page_content

/-- Embeds `Retriever.format_retrieved_context`
(01_lc_rag_poc/src/retriever.py lines 138-168): sentinel for the empty list,
otherwise blocks joined by `"\n\n---\n\n"`. -/
def format_retrieved_context (documents : List LcDocument) : List Char :=
  if documents.isEmpty then ("No relevant documents found.".data)
  else joinSep ("\n\n---\n\n".data)
    (documents.enum.map (fun p => lcBlock (p.1 + 1) p.2))

/-- The C1 counterexample text `"a.a.a.a.a."`. -/
def c1Text : List Char := "a.a.a.a.a.".data

/-- The C2 counterexample text `"..aaaaa."`. -/
def c2Text : List Char := "..aaaaa.".data

/-! ## Theorems -/

/-- Once the cursor of `split_text ⟨4, 3⟩` on `"a.a.a.a.a."` reaches
`start = 1`, every iteration snaps `end` back to 4 (the period at index 3)
and recomputes `start = 4 - 3 = 1`: the loop never exits, whatever fuel and
accumulator it is given. -/
theorem splitLoop_c1_stuck (fuel : Nat) :
    ∀ chunks, splitLoop ⟨4, 3⟩ c1Text fuel 1 chunks = none := by
  induction fuel with
  | zero => intro chunks; rfl
  | succ n ih =>
    intro chunks
    have hstep : splitLoop ⟨4, 3⟩ c1Text (n + 1) 1 chunks
        = splitLoop ⟨4, 3⟩ c1Text n 1 (chunks ++ [".a.".data]) := rfl
    rw [hstep]
    exact ih _

/-- C1: the claim states that `split_text` terminates for every text and
every valid configuration (`0 ≤ chunk_overlap < chunk_size`) within
`⌈len(text) / (chunk_size - chunk_overlap)⌉` iterations.  The code violates
this: with `chunk_size = 4`, `chunk_overlap = 3` (valid) and the ten-character
text `"a.a.a.a.a."`, the boundary snap moves `end` back to the period at
index 3 on every iteration after the first, so `start` stays at 1 forever and
the loop never terminates — the fuelled embedding returns `none` for every
fuel. -/
theorem split_text_c1_diverges :
    ∀ fuel, split_text ⟨4, 3⟩ c1Text fuel = none := by
  intro fuel
  cases fuel with
  | zero => rfl
  | succ n =>
    have hstep : split_text ⟨4, 3⟩ c1Text (n + 1)
        = splitLoop ⟨4, 3⟩ c1Text n 1 ["a.a.".data] := rfl
    rw [hstep]
    exact splitLoop_c1_stuck n _

/-- C2: the claim states that for texts longer than `chunk_size` and valid
configurations, concatenating the chunks after removing the declared overlap
region reconstructs the text up to whitespace trimming at chunk boundaries.
The code violates this: on `"..aaaaa."` with `chunk_size = 7`,
`chunk_overlap = 3` (valid), `split_text` terminates with chunks
`["..", "aaaa.", "."]`; the overlap-removed concatenation is `"..a."`, not
the original text; the chunks jointly contain only four of the text's five
`'a'` characters (so no overlap-removal scheme whatsoever can rebuild the
text), and the text contains no whitespace, so boundary trimming explains
nothing. -/
theorem split_text_c2_coverage_violation :
    split_text ⟨7, 3⟩ c2Text 9 = some ["..".data, "aaaa.".data, ".".data] ∧
    reconstructOverlap 3 ["..".data, "aaaa.".data, ".".data] = "..a.".data ∧
    "..a.".data ≠ c2Text ∧
    (["..".data, "aaaa.".data, ".".data].flatten.count 'a') < c2Text.count 'a' ∧
    c2Text.all (fun c => !(isPySpace c)) = true :=
  ⟨rfl, rfl, by decide, by decide, by decide⟩

/-- C4 counterexample: the claim states that constructing a `TextChunker`
with `chunk_size ≤ 0` raises a configuration error at construction time.  It
does not: `__init__` merely stores the fields, so construction with
`chunk_size = 0` succeeds. -/
theorem textChunker_init_cex :
    TextChunker.init 0 200 = Except.ok ⟨0, 200⟩ := rfl

/-- C4 amended: `TextChunker.__init__` performs no validation at all —
construction succeeds and raises nothing for every `(chunk_size,
chunk_overlap)` pair, valid or invalid; misconfiguration is only manifest
later, inside `split_text`. -/
theorem textChunker_init_total (cs co : Int) :
    TextChunker.init cs co = Except.ok ⟨cs, co⟩ := rfl

/-- C5 counterexample: the claim states that `split_text` on the empty text
returns the empty sequence and never emits an empty chunk.  In fact the
`len(text) <= chunk_size` fast path returns `[text] = [""]`: a one-element
sequence containing the empty chunk. -/
theorem split_text_empty_cex :
    split_text ⟨1000, 200⟩ [] 1 = some [[]] ∧
    ([([] : List Char)] : List (List Char)) ≠ [] ∧
    ([] : List Char) ∈ [([] : List Char)] :=
  ⟨rfl, by decide, by decide⟩

/-- C5 amended: for the empty input text and any non-negative `chunk_size`,
`split_text` returns the one-element sequence `[""]` (the fast path returns
`[text]` unchanged) and does not raise. -/
theorem split_text_empty_amended (ck : TextChunker) (fuel : Nat)
    (h : 0 ≤ ck.chunk_size) :
    split_text ck [] fuel = some [[]] := by
  simp [split_text, h]

/-- Witness for the amended C5 at the default configuration. -/
theorem split_text_empty_amended_witness :
    (0 : Int) ≤ (1000 : Int) ∧ split_text ⟨1000, 200⟩ [] 5 = some [[]] :=
  ⟨by decide, split_text_empty_amended ⟨1000, 200⟩ 5 (by decide)⟩

/-- C7: both formatters return the fixed sentinel string on the empty match
sequence, and that sentinel is not the empty string. -/
theorem format_context_empty_sentinel :
    format_context [] = "No relevant documents found.".data ∧
    format_retrieved_context [] = "No relevant documents found.".data ∧
    ("No relevant documents found.".data : List Char) ≠ [] :=
  ⟨rfl, rfl, by decide⟩

/-- The appending fold of the list comprehension equals a declarative
filter-then-project. -/
theorem filter_by_threshold_foldl (t : Rat) :
    ∀ (rs : List (LcDocument × Rat)) (acc : List LcDocument),
      rs.foldl (fun acc p => if p.2 ≥ t then acc ++ [p.1] else acc) acc
        = acc ++ (rs.filter (fun p => decide (t ≤ p.2))).map Prod.fst := by
  intro rs
  induction rs with
  | nil => intro acc; simp
  | cons hd tl ih =>
    intro acc
    by_cases hc : t ≤ hd.2
    · simp [List.filter_cons, hc, ih, List.append_assoc]
    · simp [List.filter_cons, hc, ih]

/-- C3: for higher-is-better threshold filtering (`score >= score_threshold`
in `retrieve_with_threshold`), the result is exactly the matches whose score
is at least the threshold, projected in the original input order; it is a
sublist of the input order (no re-sorting, nothing else included); and when
no match qualifies it is the empty list, produced normally rather than as an
error. -/
theorem filter_by_threshold_spec (rs : List (LcDocument × Rat)) (t : Rat) :
    filter_by_threshold rs t
        = (rs.filter (fun p => decide (t ≤ p.2))).map Prod.fst ∧
    (filter_by_threshold rs t).Sublist (rs.map Prod.fst) ∧
    ((∀ p ∈ rs, p.2 < t) → filter_by_threshold rs t = []) := by
  have heq : filter_by_threshold rs t
      = (rs.filter (fun p => decide (t ≤ p.2))).map Prod.fst :=
    filter_by_threshold_foldl t rs []
  refine ⟨heq, ?_, ?_⟩
  · rw [heq]
    exact List.Sublist.map Prod.fst (List.filter_sublist rs)
  · intro hall
    rw [heq]
    have : rs.filter (fun p => decide (t ≤ p.2)) = [] := by
      rw [List.filter_eq_nil_iff]
      intro p hp
      simpa using not_le.mpr (hall p hp)
    rw [this]
    rfl

/-- Witness for C3: a concrete match list in which no score reaches the
threshold filters to the empty list. -/
theorem filter_by_threshold_spec_witness :
    filter_by_threshold [(⟨"X".data, none, none⟩, mkRat 1 2)] (mkRat 3 4) = [] :=
  (filter_by_threshold_spec [(⟨"X".data, none, none⟩, mkRat 1 2)] (mkRat 3 4)).2.2
    (by decide)

/-- The first element surviving `dropWhile p` fails `p`. -/
theorem head?_dropWhile_false {α : Type} (p : α → Bool) :
    ∀ (l : List α) (a : α), (l.dropWhile p).head? = some a → p a = false := by
  intro l
  induction l with
  | nil => intro a h; simp [List.dropWhile] at h
  | cons x xs ih =>
    intro a h
    by_cases hx : p x
    · rw [List.dropWhile_cons_of_pos hx] at h
      exact ih a h
    · rw [List.dropWhile_cons_of_neg hx] at h
      simp at h
      rw [← h]
      simpa using hx


/-- A list whose head (if any) is not whitespace is unchanged by a leading
`dropWhile`. -/
theorem dropWhile_eq_self_of_head {l : List Char}
    (h : ∀ a, l.head? = some a → isPySpace a = false) :
    l.dropWhile isPySpace = l := by
  cases l with
  | nil => rfl
  | cons x xs => rw [List.dropWhile_cons_of_neg (by simp [h x rfl])]

/-- A list with no whitespace at either end is a `pystrip` fixed point. -/
theorem pystrip_eq_self {l : List Char}
    (hhead : ∀ a, l.head? = some a → isPySpace a = false)
    (hlast : ∀ a, l.reverse.head? = some a → isPySpace a = false) :
    pystrip l = l := by
  unfold pystrip
  rw [dropWhile_eq_self_of_head hhead, dropWhile_eq_self_of_head hlast,
    List.reverse_reverse]

/-- Stripping is idempotent: a stripped string has no leading or trailing
whitespace left to remove. -/
theorem pystrip_idem (s : List Char) : pystrip (pystrip s) = pystrip s := by
  apply pystrip_eq_self
  · intro a ha
    unfold pystrip at ha
    cases hvr : ((s.dropWhile isPySpace).reverse.dropWhile isPySpace).reverse with
    | nil => rw [hvr] at ha; simp at ha
    | cons b w =>
      rw [hvr] at ha
      simp at ha
      obtain ⟨t, ht⟩ :=
        List.dropWhile_suffix (l := (s.dropWhile isPySpace).reverse) isPySpace
      have hu_eq : s.dropWhile isPySpace
          = ((s.dropWhile isPySpace).reverse.dropWhile isPySpace).reverse
            ++ t.reverse := by
        have h2 := congrArg List.reverse ht
        simpa [List.reverse_append] using h2.symm
      have hb : (s.dropWhile isPySpace).head? = some b := by
        rw [hu_eq, hvr]
        rfl
      rw [← ha]
      exact head?_dropWhile_false isPySpace s b hb
  · intro a ha
    unfold pystrip at ha
    rw [List.reverse_reverse] at ha
    exact head?_dropWhile_false isPySpace (s.dropWhile isPySpace).reverse a ha

/-- Every chunk placed by `pushChunk` is either an old one or the freshly
stripped, non-empty slice. -/
theorem pushChunk_mem {text : List Char} {start e1 : Int}
    {chunks : List (List Char)} {c : List Char}
    (h : c ∈ pushChunk text start e1 chunks) :
    c ∈ chunks ∨ (c = pystrip (pyslice text start e1) ∧ c ≠ []) := by
  unfold pushChunk at h
  by_cases he : (pystrip (pyslice text start e1)).isEmpty
  · rw [if_pos he] at h
    exact Or.inl h
  · rw [if_neg he] at h
    rcases List.mem_append.mp h with h1 | h2
    · exact Or.inl h1
    · right
      simp at h2
      refine ⟨h2, ?_⟩
      rw [h2]
      simpa [List.isEmpty_iff] using he

/-- Every chunk in a completed `splitLoop` run is either already in the
accumulator or is the stripped, non-empty image of some string. -/
theorem splitLoop_mem (ck : TextChunker) (text : List Char) :
    ∀ (fuel : Nat) (start : Int) (acc out : List (List Char)),
      splitLoop ck text fuel start acc = some out →
      ∀ c ∈ out, c ∈ acc ∨ ∃ s, c = pystrip s ∧ c ≠ [] := by
  intro fuel
  induction fuel with
  | zero =>
    intro start acc out h
    exact absurd h (by simp [splitLoop])
  | succ n ih =>
    intro start acc out h c hc
    rw [splitLoop] at h
    by_cases h1 : start < (text.length : Int)
    · rw [if_pos h1] at h
      by_cases h2 : snapEnd ck text start - ck.chunk_overlap ≥ (text.length : Int)
      · rw [if_pos h2] at h
        have hout : out = pushChunk text start (snapEnd ck text start) acc :=
          (Option.some.inj h).symm
        rw [hout] at hc
        rcases pushChunk_mem hc with h3 | h4
        · exact Or.inl h3
        · exact Or.inr ⟨pyslice text start (snapEnd ck text start), h4⟩
      · rw [if_neg h2] at h
        rcases ih _ _ _ h c hc with h3 | h4
        · rcases pushChunk_mem h3 with h5 | h6
          · exact Or.inl h5
          · exact Or.inr ⟨pyslice text start (snapEnd ck text start), h6⟩
        · exact Or.inr h4
    · rw [if_neg h1] at h
      exact Or.inl ((Option.some.inj h) ▸ hc)

/-- Every chunk returned by `split_text` is either the whole input text (the
`len(text) <= chunk_size` fast path) or a stripped, non-empty string built by
the loop. -/
theorem split_text_mem {ck : TextChunker} {text : List Char} {fuel : Nat}
    {cs : List (List Char)} (h : split_text ck text fuel = some cs) :
    ∀ c ∈ cs, (c = text ∧ (text.length : Int) ≤ ck.chunk_size) ∨
      ∃ s, c = pystrip s ∧ c ≠ [] := by
  intro c hc
  unfold split_text at h
  by_cases h1 : (text.length : Int) ≤ ck.chunk_size
  · rw [if_pos h1] at h
    have h2 : cs = [text] := (Option.some.inj h).symm
    rw [h2] at hc
    simp at hc
    exact Or.inl ⟨hc, h1⟩
  · rw [if_neg h1] at h
    rcases splitLoop_mem ck text fuel 0 [] cs h c hc with h2 | h3
    · simp at h2
    · exact Or.inr h3

/-- Every chunked document in a completed `chunkDocsLoop` run comes from the
accumulator or from the `split_text` of some input document. -/
theorem chunkDocsLoop_mem {μ : Type} (ck : TextChunker) (fuel : Nat) :
    ∀ (docs : List (PyDoc μ)) (acc out : List (ChunkedDoc μ)),
      chunkDocsLoop ck fuel docs acc = some out →
      ∀ c ∈ out, c ∈ acc ∨ ∃ d ∈ docs, ∃ cs,
        split_text ck d.page_content fuel = some cs ∧ c ∈ enumChunks d cs := by
  intro docs
  induction docs with
  | nil =>
    intro acc out h c hc
    rw [chunkDocsLoop] at h
    exact Or.inl ((Option.some.inj h) ▸ hc)
  | cons d ds ih =>
    intro acc out h c hc
    rw [chunkDocsLoop] at h
    cases hsp : split_text ck d.page_content fuel with
    | none => rw [hsp] at h; exact absurd h (by simp)
    | some cs =>
      rw [hsp] at h
      rcases ih _ _ h c hc with h1 | h2
      · rcases List.mem_append.mp h1 with h3 | h4
        · exact Or.inl h3
        · exact Or.inr ⟨d, by simp, cs, hsp, h4⟩
      · obtain ⟨d', hd', cs', hcs', hmem⟩ := h2
        exact Or.inr ⟨d', by simp [hd'], cs', hcs', hmem⟩

/-- C6 counterexample: the claim states that a Document yielding zero
non-empty chunks (for example all-whitespace text) produces no Chunk, and
that every emitted chunk content is non-empty after trimming.  In fact the
fast path of `split_text` returns the all-whitespace text unchanged, so an
all-whitespace Document yields exactly one Chunk whose content trims to the
empty string. -/
theorem chunk_documents_whitespace_cex :
    chunk_documents ⟨1000, 200⟩ [(⟨[' '], (0 : Nat)⟩ : PyDoc Nat)] 1
      = some [⟨[' '], 0, 0, 1⟩] ∧
    pystrip [' '] = [] :=
  ⟨rfl, by decide⟩

/-- C6 amended: every chunk emitted by `chunk_documents` either has content
that is non-empty after whitespace trimming, or is the verbatim text of a
parent Document no longer than `chunk_size` (the fast path emits `[text]`
unchanged, so empty or all-whitespace Documents yield one possibly
all-whitespace Chunk). -/
theorem chunk_documents_nonempty_amended {μ : Type} (ck : TextChunker)
    (fuel : Nat) (docs : List (PyDoc μ)) (out : List (ChunkedDoc μ))
    (h : chunk_documents ck docs fuel = some out) :
    ∀ c ∈ out, pystrip c.page_content ≠ [] ∨
      ∃ d ∈ docs, c.page_content = d.page_content ∧
        (d.page_content.length : Int) ≤ ck.chunk_size := by
  intro c hc
  rcases chunkDocsLoop_mem ck fuel docs [] out h c hc with h1 | h2
  · simp at h1
  · obtain ⟨d, hd, cs, hcs, hmem⟩ := h2
    unfold enumChunks at hmem
    obtain ⟨p, hp, hpc⟩ := List.mem_map.mp hmem
    have hcontent : c.page_content = p.2 := by rw [← hpc]
    have hget : cs.get? p.1 = some p.2 := by
      have h0 := List.mem_enum_iff_getElem?.mp hp
      rw [List.get?_eq_getElem?]
      exact h0
    have hp2 : p.2 ∈ cs := List.get?_mem hget
    rcases split_text_mem hcs p.2 hp2 with hfast | hstrip
    · exact Or.inr ⟨d, hd, hcontent.trans hfast.1, hfast.2⟩
    · obtain ⟨s0, hs0, hne⟩ := hstrip
      left
      rw [hcontent, hs0, pystrip_idem, ← hs0]
      exact hne

/-- Witness for the amended C6: the whitespace-Document chunk from the
counterexample satisfies the amended disjunction through its right branch. -/
theorem chunk_documents_nonempty_amended_witness :
    pystrip (⟨[' '], (0 : Nat), 0, 1⟩ : ChunkedDoc Nat).page_content ≠ [] ∨
    ∃ d ∈ [(⟨[' '], (0 : Nat)⟩ : PyDoc Nat)],
      (⟨[' '], (0 : Nat), 0, 1⟩ : ChunkedDoc Nat).page_content = d.page_content ∧
      (d.page_content.length : Int) ≤ (1000 : Int) :=
  chunk_documents_nonempty_amended ⟨1000, 200⟩ 1 [⟨[' '], (0 : Nat)⟩]
    [⟨[' '], 0, 0, 1⟩] (by rfl) ⟨[' '], 0, 0, 1⟩ (by decide)

/-- Running the document loop with pointwise-known `split_text` results
appends, in input order, the per-document enumerations. -/
theorem chunkDocsLoop_eq {μ : Type} (ck : TextChunker) (fuel : Nat) :
    ∀ (docs : List (PyDoc μ)) (css : List (List (List Char)))
      (acc : List (ChunkedDoc μ)),
      docs.length = css.length →
      (∀ i (h1 : i < docs.length) (h2 : i < css.length),
        split_text ck (docs.get ⟨i, h1⟩).page_content fuel
          = some (css.get ⟨i, h2⟩)) →
      chunkDocsLoop ck fuel docs acc
        = some (acc ++ (List.zipWith enumChunks docs css).flatten) := by
  intro docs
  induction docs with
  | nil =>
    intro css acc hlen hsp
    cases css with
    | nil => simp [chunkDocsLoop]
    | cons cs css' => simp at hlen
  | cons d ds ih =>
    intro css acc hlen hsp
    cases css with
    | nil => simp at hlen
    | cons cs css' =>
      have h0 : split_text ck d.page_content fuel = some cs :=
        hsp 0 (by simp) (by simp)
      rw [chunkDocsLoop, h0]
      dsimp only
      have hlen' : ds.length = css'.length := by simpa using hlen
      have hsp' : ∀ i (h1 : i < ds.length) (h2 : i < css'.length),
          split_text ck (ds.get ⟨i, h1⟩).page_content fuel
            = some (css'.get ⟨i, h2⟩) := by
        intro i h1 h2
        exact hsp (i + 1) (by simpa using h1) (by simpa using h2)
      rw [ih css' _ hlen' hsp']
      simp [List.append_assoc]

/-- C9: when every document's `split_text` completes, `chunk_documents`
returns exactly the concatenation, in input-document order, of the enumerated
per-document chunk lists (so chunk order within a document is preserved);
and every emitted Chunk has `chunk < total_chunks`, carries its parent's
metadata verbatim, has `total_chunks` equal to the parent's total chunk
count, and its content is the parent's chunk at index `chunk`. -/
theorem chunk_documents_metadata {μ : Type} (ck : TextChunker) (fuel : Nat)
    (docs : List (PyDoc μ)) (css : List (List (List Char)))
    (hlen : docs.length = css.length)
    (hsp : ∀ i (h1 : i < docs.length) (h2 : i < css.length),
      split_text ck (docs.get ⟨i, h1⟩).page_content fuel
        = some (css.get ⟨i, h2⟩)) :
    chunk_documents ck docs fuel
        = some ((List.zipWith enumChunks docs css).flatten) ∧
    ∀ out, chunk_documents ck docs fuel = some out →
      ∀ c ∈ out, c.chunk < c.total_chunks ∧
        ∃ d ∈ docs, c.metadata = d.metadata ∧
          ∃ cs, split_text ck d.page_content fuel = some cs ∧
            c.total_chunks = cs.length ∧ cs.get? c.chunk = some c.page_content := by
  constructor
  · exact chunkDocsLoop_eq ck fuel docs css [] hlen hsp
  · intro out hout c hc
    rcases chunkDocsLoop_mem ck fuel docs [] out hout c hc with h1 | h2
    · simp at h1
    · obtain ⟨d, hd, cs, hcs, hmem⟩ := h2
      unfold enumChunks at hmem
      obtain ⟨p, hp, hpc⟩ := List.mem_map.mp hmem
      have hget : cs.get? p.1 = some p.2 := by
        rw [List.get?_eq_getElem?]
        exact List.mem_enum_iff_getElem?.mp hp
      have hlt : p.1 < cs.length := by
        rw [List.get?_eq_getElem?] at hget
        exact (List.getElem?_eq_some.mp hget).1
      refine ⟨?_, d, hd, ?_, cs, hcs, ?_, ?_⟩
      · rw [← hpc]
        exact hlt
      · rw [← hpc]
      · rw [← hpc]
      · rw [← hpc]
        exact hget

/-- Witness for C9: one short document, whose split is itself, yields the
single Chunk with index 0 of 1 and the parent metadata. -/
theorem chunk_documents_metadata_witness :
    [(⟨"ab".data, (7 : Nat)⟩ : PyDoc Nat)].length = [["ab".data]].length ∧
    chunk_documents ⟨1000, 200⟩ [(⟨"ab".data, (7 : Nat)⟩ : PyDoc Nat)] 1
      = some ((List.zipWith enumChunks [(⟨"ab".data, (7 : Nat)⟩ : PyDoc Nat)]
          [["ab".data]]).flatten) :=
  ⟨rfl,
    (chunk_documents_metadata ⟨1000, 200⟩ 1 [⟨"ab".data, (7 : Nat)⟩]
      [["ab".data]] rfl (by
        intro i h1 h2
        match i, h1 with
        | 0, _ => rfl)).1⟩

/-- Each member of a joined list of parts occurs inside the join. -/
theorem joinSep_mem (sep : List Char) :
    ∀ (parts : List (List Char)) (x : List Char), x ∈ parts →
      x <:+: joinSep sep parts := by
  intro parts
  induction parts with
  | nil => intro x hx; simp at hx
  | cons y ys ih =>
    intro x hx
    rcases List.mem_cons.mp hx with rfl | hx'
    · cases ys with
      | nil => exact ⟨[], [], by simp [joinSep]⟩
      | cons z zs =>
        exact ⟨[], sep ++ joinSep sep (z :: zs), by simp [joinSep, List.append_assoc]⟩
    · cases ys with
      | nil => simp at hx'
      | cons z zs =>
        obtain ⟨s, t, hst⟩ := ih x hx'
        exact ⟨y ++ sep ++ s, t, by rw [joinSep, ← hst]; simp [List.append_assoc]⟩

/-- C8 amended: in the az `format_context`, the block of the match at
0-based position `i` occurs in the output and consists of a header carrying
the 1-based index `i+1`, the source, the page and the score rendered to
three decimal digits, followed by the match's content verbatim — not
whitespace-trimmed — and a newline; in the lc `format_retrieved_context`,
the block of the document at position `j` occurs in the output and consists
of a header carrying the 1-based index, the source and the page — no score —
followed by the content trimmed of surrounding whitespace. -/
theorem format_blocks_amended (ms : List AzSearchDoc) (ds : List LcDocument)
    (i j : Nat) (hi : i < ms.length) (hj : j < ds.length) :
    azBlock (i + 1) (ms.get ⟨i, hi⟩) <:+: format_context ms ∧
    lcBlock (j + 1) (ds.get ⟨j, hj⟩) <:+: format_retrieved_context ds ∧
    (∀ (k : Nat) (m : AzSearchDoc), ∃ h,
      azBlock (k + 1) m = h ++ (m.content ++ ['\n']) ∧
      ((Nat.repr (k + 1)).data <:+: h) ∧ (azRenderSource m.source_file <:+: h) ∧
      (azRenderPage m.page <:+: h) ∧
      (format3 (m.score.getD (mkRat 0 1)) <:+: h)) ∧
    (∀ (k : Nat) (d : LcDocument), ∃ h,
      lcBlock (k + 1) d = h ++ pystrip d.page_content ∧
      ((Nat.repr (k + 1)).data <:+: h) ∧
      ((d.source_file.getD ("unknown".data)) <:+: h) ∧
      (lcRenderPage d.page <:+: h)) := by
  refine ⟨?_, ?_, ?_, ?_⟩
  · have hms : ms.isEmpty = false := by
      cases ms with
      | nil => simp at hi
      | cons a as => rfl
    have hmem : azBlock (i + 1) (ms.get ⟨i, hi⟩)
        ∈ ms.enum.map (fun p => azBlock (p.1 + 1) p.2) := by
      apply List.mem_map.mpr
      refine ⟨(i, ms.get ⟨i, hi⟩), ?_, rfl⟩
      apply List.mem_enum_iff_getElem?.mpr
      simp [List.getElem?_eq_getElem, List.get_eq_getElem]
    unfold format_context
    rw [if_neg (by simp [hms])]
    exact joinSep_mem ['\n'] _ _ hmem
  · have hds : ds.isEmpty = false := by
      cases ds with
      | nil => simp at hj
      | cons a as => rfl
    have hmem : lcBlock (j + 1) (ds.get ⟨j, hj⟩)
        ∈ ds.enum.map (fun p => lcBlock (p.1 + 1) p.2) := by
      apply List.mem_map.mpr
      refine ⟨(j, ds.get ⟨j, hj⟩), ?_, rfl⟩
      apply List.mem_enum_iff_getElem?.mpr
      simp [List.getElem?_eq_getElem, List.get_eq_getElem]
    unfold format_retrieved_context
    rw [if_neg (by simp [hds])]
    exact joinSep_mem ("\n\n---\n\n".data) _ _ hmem
  · intro k m
    refine ⟨("[Document ".data) ++ (Nat.repr (k + 1)).data ++ ("] (Source: ".data)
      ++ azRenderSource m.source_file ++ (", Page: ".data) ++ azRenderPage m.page
      ++ (", Score: ".data) ++ format3 (m.score.getD (mkRat 0 1)) ++ (")\n".data),
      ?_, ?_, ?_, ?_, ?_⟩
    · simp only [azBlock, List.append_assoc]
    · exact ⟨"[Document ".data,
        ("] (Source: ".data) ++ azRenderSource m.source_file ++ (", Page: ".data)
          ++ azRenderPage m.page ++ (", Score: ".data)
          ++ format3 (m.score.getD (mkRat 0 1)) ++ (")\n".data),
        by simp only [List.append_assoc]⟩
    · exact ⟨("[Document ".data) ++ (Nat.repr (k + 1)).data ++ ("] (Source: ".data),
        (", Page: ".data) ++ azRenderPage m.page ++ (", Score: ".data)
          ++ format3 (m.score.getD (mkRat 0 1)) ++ (")\n".data),
        by simp only [List.append_assoc]⟩
    · exact ⟨("[Document ".data) ++ (Nat.repr (k + 1)).data ++ ("] (Source: ".data)
          ++ azRenderSource m.source_file ++ (", Page: ".data),
        (", Score: ".data) ++ format3 (m.score.getD (mkRat 0 1)) ++ (")\n".data),
        by simp only [List.append_assoc]⟩
    · exact ⟨("[Document ".data) ++ (Nat.repr (k + 1)).data ++ ("] (Source: ".data)
          ++ azRenderSource m.source_file ++ (", Page: ".data) ++ azRenderPage m.page
          ++ (", Score: ".data),
        ")\n".data,
        by simp only [List.append_assoc]⟩
  · intro k d
    refine ⟨("[Source ".data) ++ (Nat.repr (k + 1)).data ++ (": ".data)
      ++ (d.source_file.getD ("unknown".data)) ++ (", page ".data)
      ++ lcRenderPage d.page ++ ("]\n".data), ?_, ?_, ?_, ?_⟩
    · simp only [lcBlock, List.append_assoc]
    · exact ⟨"[Source ".data,
        (": ".data) ++ (d.source_file.getD ("unknown".data)) ++ (", page ".data)
          ++ lcRenderPage d.page ++ ("]\n".data),
        by simp only [List.append_assoc]⟩
    · exact ⟨("[Source ".data) ++ (Nat.repr (k + 1)).data ++ (": ".data),
        (", page ".data) ++ lcRenderPage d.page ++ ("]\n".data),
        by simp only [List.append_assoc]⟩
    · exact ⟨("[Source ".data) ++ (Nat.repr (k + 1)).data ++ (": ".data)
          ++ (d.source_file.getD ("unknown".data)) ++ (", page ".data),
        "]\n".data,
        by simp only [List.append_assoc]⟩

/-- Witness for the amended C8 on concrete singleton match lists. -/
theorem format_blocks_amended_witness :
    (0 : Nat) < 1 ∧
    azBlock 1 ([(⟨"Y".data, none, none, none⟩ : AzSearchDoc)].get ⟨0, Nat.zero_lt_one⟩)
      <:+: format_context [(⟨"Y".data, none, none, none⟩ : AzSearchDoc)] :=
  ⟨Nat.zero_lt_one,
    (format_blocks_amended [⟨"Y".data, none, none, none⟩] [⟨"Z".data, none, none⟩]
      0 0 Nat.zero_lt_one Nat.zero_lt_one).1⟩

/-- C8 counterexample: the claim states every block ends with the match's
`chunk_content` trimmed of surrounding whitespace.  In the az
`format_context`, content is emitted verbatim: for content `" X "` the output
block carries `" X "`, and the trimmed content `"X"` never directly follows
a header line's newline anywhere in the output. -/
theorem format_context_trim_cex :
    format_context [⟨" X ".data, some ("a".data), some 1, some (mkRat 812 1000)⟩]
      = "[Document 1] (Source: a, Page: 1, Score: 0.812)\n X \n".data ∧
    pystrip (" X ".data) = "X".data ∧
    ¬ (['\n', 'X'] <:+:
      format_context [⟨" X ".data, some ("a".data), some 1, some (mkRat 812 1000)⟩]) :=
  ⟨by rfl, by rfl, by decide⟩

/-- C10 counterexample: the claim states the formatters substitute `"?"` for
a missing page.  The lc `format_retrieved_context` substitutes `"N/A"`: the
output for a document with no page metadata contains no `'?'` at all. -/
theorem format_defaults_cex :
    format_retrieved_context [⟨"X".data, none, none⟩]
      = "[Source 1: unknown, page N/A]\nX".data ∧
    '?' ∉ format_retrieved_context [⟨"X".data, none, none⟩] :=
  ⟨by rfl, by decide⟩

/-- C10 amended: both formatters are total on matches with missing metadata
and substitute defaults instead of raising: az `format_context` substitutes
`"unknown"` for the source, `"?"` for the page and `0.0` for the score; lc
`format_retrieved_context` substitutes `"unknown"` for the source and `"N/A"`
(not `"?"`) for the page, and renders no score at all. -/
theorem format_defaults_amended (c : List Char) :
    format_context [⟨c, none, none, none⟩]
      = ("[Document 1] (Source: unknown, Page: ?, Score: 0.000)\n".data)
        ++ c ++ ['\n'] ∧
    format_retrieved_context [⟨c, none, none⟩]
      = ("[Source 1: unknown, page N/A]\n".data) ++ pystrip c := by
  constructor
  · show joinSep ['\n'] [azBlock 1 ⟨c, none, none, none⟩] = _
    show azBlock 1 ⟨c, none, none, none⟩ = _
    simp only [azBlock, azRenderSource, azRenderPage, format3]
    norm_num
    rfl
  · show joinSep ("\n\n---\n\n".data) [lcBlock 1 ⟨c, none, none⟩] = _
    show lcBlock 1 ⟨c, none, none⟩ = _
    simp only [lcBlock, lcRenderPage]
    norm_num
    rfl
